import Mathlib

/-!
Verification development for the Team Availability & Conversation Assignment
Engine.  The definitions below are a shallow embedding of the TypeScript
sources: `userAvailability` data layer (status records, history, analytics,
scheduled sweeps) and the auto-assignment engine (availability join, workload
gate, expertise matching, scoring, rotation tie-break, assignment commit).

Modelling conventions:
* Dates (`Date.getTime()`) are `Int` milliseconds.
* JavaScript truthiness is made explicit at each use site
  (empty string / `0` / `null` / `undefined` are falsy).
* `async` database code is state passing over a `Store`; a drizzle
  `db.transaction` is all-or-nothing: a failure inside the callback yields
  `Except.error` and no new state escapes.  The realtime broadcast
  (`publishToRealtime`) is represented by a `broadcastOk : Bool` outcome;
  the source awaits it inside the transaction callback.
* `Array.prototype.sort` with a consistent comparator (ES2019+) produces the
  stable sorted permutation; it is embedded as `List.insertionSort`, which
  is stable for the same before-or-equal relation.
* A JS `Map` built from an entry list keeps the last entry for a duplicate
  key; a plain record object lookup is by key.
-/

namespace Helper

/-- Availability status (`availabilityStatusEnum`: online, busy, away, offline). -/
inductive Status
  | online
  | busy
  | away
  | offline
deriving DecidableEq, Repr

/-- Change reason of an availability transition (`AvailabilityHistoryData.changeReason`). -/
inductive ChangeReason
  | manual
  | autoActivity
  | autoInactivity
  | businessHoursReason
  | scheduled
deriving DecidableEq, Repr

/-- Business-hours configuration: timezone plus per-weekday start/end or null. -/
structure BusinessHours where
  timezone : String
  schedule : List (String × Option (String × String))
deriving DecidableEq, Repr

/-- Session metrics optionally carried by a history entry (`sessionData`). -/
structure SessionData where
  conversationsHandled : Option Int
  messagesReplied : Option Int
  averageResponseTime : Option Rat
deriving DecidableEq, Repr

/-- One row of `user_availability` (`UserAvailabilityData`). -/
structure AvailabilityRecord where
  userId : String
  mailboxId : Nat
  status : Status
  customMessage : Option String
  lastActivityAt : Int
  lastStatusChangeAt : Int
  autoAwayAt : Option Int
  scheduledReturnAt : Option Int
  businessHours : Option BusinessHours
deriving DecidableEq, Repr

/-- One row of `availability_history` (`AvailabilityHistoryData`), with the
`createdAt` timestamp the schema adds via `withTimestamps`. -/
structure AvailabilityHistoryData where
  userId : String
  mailboxId : Nat
  fromStatus : Status
  toStatus : Status
  durationSeconds : Option Int
  changeReason : ChangeReason
  sessionData : Option SessionData
  createdAt : Int
deriving DecidableEq, Repr

/-- The availability persistence: the `user_availability` table plus the
append-only `availability_history` table. -/
structure Store where
  records : List AvailabilityRecord
  history : List AvailabilityHistoryData
deriving DecidableEq, Repr

/-- The `updates` argument of `updateUserAvailability`
(`Partial<UserAvailabilityData> & {changeReason?, sessionData?}`).
`none` on an outer `Option` means the property is absent (`undefined`) and is
skipped by the drizzle write; the inner `Option` is SQL null.
`userId`, `mailboxId` and `lastStatusChangeAt` are never supplied by any
caller in the repository and are omitted.  `changeReason` defaults to
`manual` exactly as the destructuring default does. -/
structure AvailabilityUpdates where
  status : Option Status := none
  customMessage : Option (Option String) := none
  lastActivityAt : Option Int := none
  autoAwayAt : Option (Option Int) := none
  scheduledReturnAt : Option (Option Int) := none
  businessHours : Option (Option BusinessHours) := none
  changeReason : ChangeReason := .manual
  sessionData : Option SessionData := none
deriving DecidableEq, Repr

/-- Key predicate used by every `where(and(eq(userId ...), eq(mailboxId ...)))`. -/
def sameKey (userId : String) (mailboxId : Nat) (r : AvailabilityRecord) : Bool :=
  r.userId == userId && r.mailboxId == mailboxId

/-- The (userId, mailboxId) key of a record; unique per the schema invariant. -/
def keyOf (r : AvailabilityRecord) : String × Nat :=
  (r.userId, r.mailboxId)

/-- `getUserAvailability`: `findFirst` on the composite key. -/
def getUserAvailability (st : Store) (userId : String) (mailboxId : Nat) :
    Option AvailabilityRecord :=
  st.records.find? (sameKey userId mailboxId)

/-- The `tx.update(userAvailability).set({...})` payload of
`updateUserAvailability`: present fields overwrite, then
`lastStatusChangeAt` is forced to `now` whenever a `status` property is
present (the source tests `availabilityUpdates.status ?`, a truthiness test,
not a did-it-change test), and `lastActivityAt` is always forced to `now`. -/
def applyAvailabilityUpdates (r : AvailabilityRecord) (u : AvailabilityUpdates)
    (now : Int) : AvailabilityRecord :=
  { r with
    status := u.status.getD r.status
    customMessage := u.customMessage.getD r.customMessage
    autoAwayAt := u.autoAwayAt.getD r.autoAwayAt
    scheduledReturnAt := u.scheduledReturnAt.getD r.scheduledReturnAt
    businessHours := u.businessHours.getD r.businessHours
    lastStatusChangeAt := if u.status.isSome then now else r.lastStatusChangeAt
    lastActivityAt := now }

/-- The `tx.insert(userAvailability).values({...})` payload of the create
branch: defaults `status: "online"`, `lastActivityAt: now`,
`lastStatusChangeAt: now`, then the spread `...availabilityUpdates`
overrides any of them that is present. -/
def createdRecord (userId : String) (mailboxId : Nat) (u : AvailabilityUpdates)
    (now : Int) : AvailabilityRecord :=
  { userId := userId
    mailboxId := mailboxId
    status := u.status.getD .online
    customMessage := u.customMessage.getD none
    lastActivityAt := u.lastActivityAt.getD now
    lastStatusChangeAt := now
    autoAwayAt := u.autoAwayAt.getD none
    scheduledReturnAt := u.scheduledReturnAt.getD none
    businessHours := u.businessHours.getD none }

/-- The history row `updateUserAvailability` inserts, produced exactly when a
`status` property is present and differs from the current status.
`durationSeconds = Math.floor((now - lastStatusChangeAt) / 1000)`. -/
def transitionEntry (current : AvailabilityRecord) (u : AvailabilityUpdates)
    (now : Int) : Option AvailabilityHistoryData :=
  match u.status with
  | some s =>
    if s ≠ current.status then
      some { userId := current.userId
             mailboxId := current.mailboxId
             fromStatus := current.status
             toStatus := s
             durationSeconds := some ((now - current.lastStatusChangeAt).fdiv 1000)
             changeReason := u.changeReason
             sessionData := u.sessionData
             createdAt := now }
    else none
  | none => none

/-- `updateUserAvailability`: reads the current record, then in one
transaction inserts the history row (only on an actual status change),
writes the record (or creates it with defaults), and finally awaits
`publishToRealtime` — still inside the transaction callback, so a broadcast
failure rejects the whole transaction and no state change escapes. -/
def updateUserAvailability (st : Store) (userId : String) (mailboxId : Nat)
    (u : AvailabilityUpdates) (now : Int) (broadcastOk : Bool) :
    Except String (Store × AvailabilityRecord) :=
  let txResult : Store × AvailabilityRecord :=
    match getUserAvailability st userId mailboxId with
    | some current =>
      let history' := st.history ++ (transitionEntry current u now).toList
      let records' := st.records.map fun r =>
        if sameKey userId mailboxId r then applyAvailabilityUpdates r u now else r
      ({ records := records', history := history' },
        applyAvailabilityUpdates current u now)
    | none =>
      let created := createdRecord userId mailboxId u now
      ({ records := st.records ++ [created], history := st.history }, created)
  if broadcastOk then .ok txResult else .error "broadcast failed"

/-- `AUTO_AWAY_MINUTES`. -/
def AUTO_AWAY_MINUTES : Int := 15

/-- The `updates` object `recordUserActivity` builds for an existing record:
bump `lastActivityAt`; go online with reason `auto_activity` when
offline/away; reschedule the auto-away deadline only when one is already
armed (`if (current.autoAwayAt)`). -/
def recordActivityUpdates (current : AvailabilityRecord) (now : Int) : AvailabilityUpdates :=
  let base : AvailabilityUpdates := { lastActivityAt := some now }
  let withStatus :=
    if current.status == .offline || current.status == .away then
      { base with status := some Status.online, changeReason := ChangeReason.autoActivity }
    else base
  if current.autoAwayAt.isSome then
    { withStatus with autoAwayAt := some (some (now + AUTO_AWAY_MINUTES * 60 * 1000)) }
  else withStatus

/-- `recordUserActivity`: create online on first contact; otherwise apply
`recordActivityUpdates`. -/
def recordUserActivity (st : Store) (userId : String) (mailboxId : Nat)
    (now : Int) (broadcastOk : Bool) : Except String Store :=
  match getUserAvailability st userId mailboxId with
  | none =>
    (updateUserAvailability st userId mailboxId
      { status := some .online, changeReason := .autoActivity } now broadcastOk).map (·.1)
  | some current =>
    (updateUserAvailability st userId mailboxId (recordActivityUpdates current now)
      now broadcastOk).map (·.1)

/-- Query predicate of the first sweep pass:
`lte(scheduledReturnAt, now)` (SQL: false on null) and `status = 'away'`. -/
def scheduledReturnDue (now : Int) (r : AvailabilityRecord) : Bool :=
  (r.scheduledReturnAt.any fun t => decide (t ≤ now)) && r.status == .away

/-- Query predicate of the second sweep pass:
`lte(autoAwayAt, now)` (SQL: false on null) and `status = 'online'`. -/
def autoAwayDue (now : Int) (r : AvailabilityRecord) : Bool :=
  (r.autoAwayAt.any fun t => decide (t ≤ now)) && r.status == .online

/-- Updates applied by the scheduled-return pass. -/
def updScheduledReturn : AvailabilityUpdates :=
  { status := some .online, scheduledReturnAt := some none, changeReason := .scheduled }

/-- Updates applied by the auto-away pass. -/
def updAutoAway : AvailabilityUpdates :=
  { status := some .away, autoAwayAt := some none, changeReason := .autoInactivity }

/-- One `for (const user of targets) await updateUserAvailability(...)` loop
of `processScheduledStatusChanges`; an update failure aborts the loop
(the source has no try/catch around it). -/
def sweepPass (st : Store) (targets : List AvailabilityRecord)
    (u : AvailabilityUpdates) (now : Int) (broadcastOk : Bool) :
    Except String Store :=
  targets.foldlM
    (fun acc r =>
      (updateUserAvailability acc r.userId r.mailboxId u now broadcastOk).map (·.1))
    st

/-- `processScheduledStatusChanges`: pass (a) moves due scheduled returns
(away, scheduledReturnAt ≤ now) to online and clears the field; pass (b)
then queries the updated table and moves expired auto-away users
(online, autoAwayAt ≤ now) to away and clears that field. -/
def processScheduledStatusChanges (st : Store) (now : Int) (broadcastOk : Bool) :
    Except String Store := do
  let st1 ← sweepPass st (st.records.filter (scheduledReturnDue now))
    updScheduledReturn now broadcastOk
  sweepPass st1 (st1.records.filter (autoAwayDue now)) updAutoAway now broadcastOk

/-- Roles from `UserRoles` as used by the engine (`CORE`, `NON_CORE`, rest). -/
inductive UserRole
  | core
  | nonCore
  | other
deriving DecidableEq, Repr

/-- `UserWithMailboxAccessData`: the roster entry fields the engine reads. -/
structure UserWithMailboxAccessData where
  id : String
  displayName : String
  role : UserRole
  keywords : List String
deriving DecidableEq, Repr

/-- `WORKLOAD_THRESHOLDS`. -/
def WORKLOAD_THRESHOLDS : Status → Nat
  | .online => 8
  | .busy => 3
  | .away => 0
  | .offline => 0

/-- `PRIORITY_SCORES`. -/
def PRIORITY_SCORES : Status → Int
  | .online => 100
  | .busy => 50
  | .away => 0
  | .offline => 0

/-- The `availability` summary joined onto a roster entry. -/
structure MemberAvailability where
  status : Status
  currentWorkload : Nat
  isAvailableForAssignment : Bool
  customMessage : Option String
deriving DecidableEq, Repr

/-- `AvailableTeamMember`: roster entry plus availability summary. -/
structure AvailableTeamMember where
  id : String
  displayName : String
  role : UserRole
  keywords : List String
  availability : MemberAvailability
deriving DecidableEq, Repr

/-- One element of the `getTeamWorkloadDistribution` result, as consumed by
`getAvailableTeamMembers`. -/
structure WorkloadEntry where
  userId : String
  status : Status
  currentWorkload : Nat
  isAvailableForAssignment : Bool
  customMessage : Option String
deriving DecidableEq, Repr

/-- Lookup in `new Map(workloadDistribution.map(w => [w.userId, w]))`:
for a duplicated userId the later entry wins, hence the reverse. -/
def workloadLookup (dist : List WorkloadEntry) (id : String) : Option WorkloadEntry :=
  dist.reverse.find? fun w => w.userId == id

/-- `getAvailableTeamMembers`: join roster and workload distribution
(defaults offline / 0 / false when the user has no row) and keep only
members with `isAvailableForAssignment`. -/
def getAvailableTeamMembers (teamMembers : List UserWithMailboxAccessData)
    (dist : List WorkloadEntry) : List AvailableTeamMember :=
  (teamMembers.map fun member =>
    let w := workloadLookup dist member.id
    { id := member.id
      displayName := member.displayName
      role := member.role
      keywords := member.keywords
      availability :=
        { status := (w.map (·.status)).getD .offline
          currentWorkload := (w.map (·.currentWorkload)).getD 0
          isAvailableForAssignment := (w.map (·.isAvailableForAssignment)).getD false
          customMessage := w.bind (·.customMessage) } }
  ).filter (·.availability.isAvailableForAssignment)

/-- Result shape of `runAIObjectQuery` for the routing schema.  The source
field `matches` is spelled `matchesMap` because `matches` is reserved here. -/
structure AIExpertiseResult where
  matchesMap : List (String × Bool)
  reasoning : String
  confidenceScore : Option Rat
  urgencyLevel : Option String
deriving DecidableEq, Repr

/-- The external expertise classification capability (`runAIObjectQuery`):
candidates with keywords and the conversation content go in; it may fail. -/
abbrev Matcher :=
  List AvailableTeamMember → String → Except String AIExpertiseResult

/-- Truthiness lookup `result.matches[member.id]` on the returned record. -/
def matchLookup (matchesMap : List (String × Bool)) (id : String) : Bool :=
  ((matchesMap.find? fun kv => kv.1 == id).map (·.2)).getD false

/-- The `membersWithKeywords` filter of `getExpertiseMatchingMembers`. -/
def expertiseCandidates (availableMembers : List AvailableTeamMember) :
    List AvailableTeamMember :=
  availableMembers.filter fun member =>
    (member.role == .nonCore || member.role == .core) && !member.keywords.isEmpty

/-- `getExpertiseMatchingMembers`: empty content or no keyword-bearing
candidates short-circuit to an empty match set without consulting the
matcher; otherwise the matcher is awaited with no try/catch, so its failure
propagates. -/
def getExpertiseMatchingMembers (matcher : Matcher)
    (availableMembers : List AvailableTeamMember) (conversationContent : String) :
    Except String (List AvailableTeamMember × Option AIExpertiseResult) :=
  if conversationContent.isEmpty || availableMembers.isEmpty then
    .ok ([], none)
  else
    let membersWithKeywords := expertiseCandidates availableMembers
    if membersWithKeywords.isEmpty then
      .ok ([], none)
    else
      match matcher membersWithKeywords conversationContent with
      | .error e => .error e
      | .ok result =>
        .ok (membersWithKeywords.filter fun member => matchLookup result.matchesMap member.id,
          some result)

/-- `calculateMemberScore`. -/
def calculateMemberScore (member : AvailableTeamMember) (hasExpertiseMatch : Bool) : Int :=
  let baseScore := PRIORITY_SCORES member.availability.status
  let workloadPenalty := min ((member.availability.currentWorkload : Int) * 5) 50
  let expertiseBonus : Int := if hasExpertiseMatch then 25 else 0
  let roleBonus : Int := if member.role == .core then 10 else 0
  max 0 (baseScore - workloadPenalty + expertiseBonus + roleBonus)

/-- An element of `membersWithScores`. -/
structure ScoredMember where
  member : AvailableTeamMember
  score : Int
  hasExpertise : Bool
deriving DecidableEq, Repr

/-- The sort comparator of `selectBestMember` as a before-or-equal test:
score descending, then current workload ascending, ties keep order. -/
def scoreOrder (a b : ScoredMember) : Bool :=
  decide (b.score < a.score) ||
    (a.score == b.score &&
      decide (a.member.availability.currentWorkload ≤ b.member.availability.currentWorkload))

/-- `membersWithScores` after the in-place `.sort`: the stable sort by the
comparator, embedded as insertion sort (stable for a total preorder). -/
def sortedScoredMembers (availableMembers expertiseMatches : List AvailableTeamMember) :
    List ScoredMember :=
  List.insertionSort (fun a b => scoreOrder a b = true)
    (availableMembers.map fun member =>
      { member := member
        score := calculateMemberScore member (expertiseMatches.contains member)
        hasExpertise := expertiseMatches.contains member })

/-- `topCandidates`: every sorted entry matching the leading score. -/
def topCandidates (availableMembers expertiseMatches : List AvailableTeamMember) :
    List ScoredMember :=
  let sorted := sortedScoredMembers availableMembers expertiseMatches
  sorted.filter fun m => m.score == ((sorted.head?.map (·.score)).getD 0)

/-- `selectBestMember`: unique top scorer wins outright; otherwise the
per-mailbox rotation cache is read (`?? 0`), advanced by one modulo the tie
set size, persisted, and indexes the tie set.  The cursor state is threaded
explicitly (`cursor` in, updated cursor out). -/
def selectBestMember (availableMembers expertiseMatches : List AvailableTeamMember)
    (cursor : Option Nat) : Option AvailableTeamMember × Option Nat :=
  if availableMembers.isEmpty then (none, cursor)
  else
    let tied := topCandidates availableMembers expertiseMatches
    if tied.length == 1 then
      (tied.head?.map (·.member), cursor)
    else
      let lastAssignedIndex := cursor.getD 0
      let nextIndex := (lastAssignedIndex + 1) % tied.length
      ((tied[nextIndex]?).map (·.member), some nextIndex)

/-- `canHandleWorkload`: strictly under the per-status threshold. -/
def canHandleWorkload (member : AvailableTeamMember) : Bool :=
  decide (member.availability.currentWorkload < WORKLOAD_THRESHOLDS member.availability.status)

/-- A message row as read by `getConversationContent`. -/
structure ConversationMessage where
  role : String
  cleanedUpText : Option String
deriving DecidableEq, Repr

/-- The conversation fields the engine reads. -/
structure Conversation where
  id : Nat
  mailboxId : Nat
  subject : Option String
  messages : List ConversationMessage
  assignedToId : Option String
  mergedIntoId : Option Nat
deriving DecidableEq, Repr

/-- `getConversationContent`: subject only when there are no messages;
otherwise subject (if truthy) plus the non-empty cleaned user messages,
joined by spaces. -/
def getConversationContent (conversationData : Conversation) : String :=
  if conversationData.messages.isEmpty then
    conversationData.subject.getD ""
  else
    let userMessages :=
      ((conversationData.messages.filter fun msg => msg.role == "user").map
        fun msg => msg.cleanedUpText.getD "").filter fun s => !s.isEmpty
    let subjectParts :=
      match conversationData.subject with
      | some s => if s.isEmpty then [] else [s]
      | none => []
    String.intercalate " " (subjectParts ++ userMessages)

/-- The capacity gate of `getNextTeamMember`: candidates strictly under
threshold when any exist, else the whole available set. -/
def membersToConsider (availableMembers : List AvailableTeamMember) :
    List AvailableTeamMember :=
  let workloadCapableMembers := availableMembers.filter canHandleWorkload
  if workloadCapableMembers.length > 0 then workloadCapableMembers else availableMembers

/-- `availabilityMetrics` of a successful `getNextTeamMember`. -/
structure AvailabilityMetrics where
  totalAvailable : Nat
  onlineMembers : Nat
  busyMembers : Nat
  averageWorkload : Rat
deriving DecidableEq, Repr

/-- The object `getNextTeamMember` resolves with (field `error` is its
diagnostic string, not a thrown failure). -/
structure NextMemberResult where
  member : Option AvailableTeamMember
  aiResult : Option AIExpertiseResult
  error : Option String
  availabilityMetrics : Option AvailabilityMetrics
deriving DecidableEq, Repr

/-- `getNextTeamMember`: availability filter, capacity gate with fallback,
optional expertise matching (errors propagate), scoring and tie-break. -/
def getNextTeamMember (matcher : Matcher)
    (teamMembers : List UserWithMailboxAccessData) (conversation : Conversation)
    (dist : List WorkloadEntry) (cursor : Option Nat) :
    Except String (NextMemberResult × Option Nat) :=
  let availableMembers := getAvailableTeamMembers teamMembers dist
  if availableMembers.isEmpty then
    .ok ({ member := none
           aiResult := none
           error := some "No team members available for assignment"
           availabilityMetrics := none }, cursor)
  else
    let considered := membersToConsider availableMembers
    let conversationContent := getConversationContent conversation
    match getExpertiseMatchingMembers matcher considered conversationContent with
    | .error e => .error e
    | .ok (expertiseMatches, aiResult) =>
      let selected := selectBestMember considered expertiseMatches cursor
      .ok ({ member := selected.1
             aiResult := aiResult
             error := none
             availabilityMetrics := some
               { totalAvailable := availableMembers.length
                 onlineMembers :=
                   (availableMembers.filter fun m => m.availability.status == .online).length
                 busyMembers :=
                   (availableMembers.filter fun m => m.availability.status == .busy).length
                 averageWorkload :=
                   (availableMembers.foldl
                     (fun sum m => sum + (m.availability.currentWorkload : Rat)) 0) /
                     availableMembers.length } }, selected.2)

/-- The mailbox fields the engine reads. -/
structure Mailbox where
  id : Nat
deriving DecidableEq, Repr

/-- Status names as rendered into the synthesized assignment note. -/
def statusText : Status → String
  | .online => "online"
  | .busy => "busy"
  | .away => "away"
  | .offline => "offline"

/-- The writes `autoAssignConversation` can perform after a selection. -/
inductive AssignEffect
  | recordActivity (userId : String) (mailboxId : Nat)
  | updateConversation (conversationId : Nat) (assignedToId : String) (message : String)
deriving DecidableEq, Repr

/-- The outcome object of `autoAssignConversation`, reduced to the message
and the assignee (diagnostic extras are not modelled). -/
structure AssignOutcome where
  message : String
  assigneeId : Option String
deriving DecidableEq, Repr

/-- Failures `autoAssignConversation` can raise:
`assertDefinedOrRaiseNonRetriableError` on missing rows, or a propagated
matcher failure. -/
inductive AssignError
  | nonRetriable
  | matcherFailed (e : String)
deriving DecidableEq, Repr

/-- `autoAssignConversation`: precondition short-circuits (already assigned,
merged, no active roster) return skip outcomes with no writes; a selection
records activity for the winner and assigns with a note
(`aiResult?.reasoning ||` synthesized explanation — truthiness, so an empty
reasoning falls back).  The inputs stand for the database reads
(`findFirst`, `getMailboxById`, `getUsersWithMailboxAccess`,
`getTeamWorkloadDistribution`, rotation cache). -/
def autoAssignConversation (matcher : Matcher) (conversation : Option Conversation)
    (mailbox : Option Mailbox) (teamMembers : Option (List UserWithMailboxAccessData))
    (dist : List WorkloadEntry) (cursor : Option Nat) :
    Except AssignError (AssignOutcome × List AssignEffect × Option Nat) :=
  match conversation with
  | none => .error .nonRetriable
  | some conv =>
    if conv.assignedToId.isSome then
      .ok ({ message := "Skipped: already assigned", assigneeId := none }, [], cursor)
    else if conv.mergedIntoId.isSome then
      .ok ({ message := "Skipped: conversation is merged", assigneeId := none }, [], cursor)
    else
      match mailbox, teamMembers with
      | none, _ => .error .nonRetriable
      | some _, none => .error .nonRetriable
      | some mb, some team =>
        let activeTeamMembers := team.filter fun member =>
          member.role == .core || member.role == .nonCore
        if activeTeamMembers.isEmpty then
          .ok ({ message := "Skipped: no active team members available for assignment"
                 assigneeId := none }, [], cursor)
        else
          match getNextTeamMember matcher activeTeamMembers conv dist cursor with
          | .error e => .error (.matcherFailed e)
          | .ok (res, cursor') =>
            match res.member with
            | none =>
              .ok ({ message := "Skipped: could not find suitable team member for assignment"
                     assigneeId := none }, [], cursor')
            | some m =>
              let fallbackNote :=
                "Assigned based on availability (" ++ statusText m.availability.status ++
                  ") and workload (" ++ toString m.availability.currentWorkload ++
                  " conversations)"
              let note :=
                match res.aiResult with
                | some ai => if ai.reasoning.isEmpty then fallbackNote else ai.reasoning
                | none => fallbackNote
              .ok ({ message := "Assigned conversation " ++ toString conv.id ++ " to " ++
                       m.displayName ++ " (" ++ m.id ++ ")"
                     assigneeId := some m.id },
                [AssignEffect.recordActivity m.id mb.id,
                 AssignEffect.updateConversation conv.id m.id note], cursor')

/-- The `statusDistribution` object of `getAvailabilityAnalytics`. -/
structure StatusDistribution where
  online : Nat
  busy : Nat
  away : Nat
  offline : Nat
deriving DecidableEq, Repr

/-- `analytics.statusDistribution[record.fromStatus]++`. -/
def bumpStatus (d : StatusDistribution) : Status → StatusDistribution
  | .online => { d with online := d.online + 1 }
  | .busy => { d with busy := d.busy + 1 }
  | .away => { d with away := d.away + 1 }
  | .offline => { d with offline := d.offline + 1 }

/-- The `productivityMetrics` object of `getAvailabilityAnalytics`. -/
structure ProductivityMetrics where
  totalConversationsHandled : Int
  totalMessagesReplied : Int
  averageResponseTime : Rat
deriving DecidableEq, Repr

/-- The analytics object (`timelineData` is initialised empty and never
filled by the source, so it is not modelled). -/
structure AvailabilityAnalytics where
  totalSessions : Nat
  averageSessionDuration : Rat
  statusDistribution : StatusDistribution
  productivityMetrics : ProductivityMetrics
deriving DecidableEq, Repr

/-- Range filter of the analytics query: same mailbox and
`startDate ≤ createdAt ≤ endDate` (gte/lte, both inclusive). -/
def inAnalyticsRange (mailboxId : Nat) (startDate endDate : Int)
    (h : AvailabilityHistoryData) : Bool :=
  h.mailboxId == mailboxId && decide (startDate ≤ h.createdAt) &&
    decide (h.createdAt ≤ endDate)

/-- Truthiness of `record.durationSeconds`: present and nonzero. -/
def truthyDuration (h : AvailabilityHistoryData) : Bool :=
  match h.durationSeconds with
  | some d => d != 0
  | none => false

/-- Truthiness of `record.sessionData.averageResponseTime`. -/
def truthyResponseTime (h : AvailabilityHistoryData) : Bool :=
  match h.sessionData with
  | some s =>
    match s.averageResponseTime with
    | some v => v != 0
    | none => false
  | none => false

/-- `getAvailabilityAnalytics`: range query ordered by `createdAt`
descending, then one accumulating pass.  `averageSessionDuration` divides
the summed truthy durations by `history.length` — the total entry count of
the range — guarded against the empty range; `averageResponseTime` instead
divides by the count of entries that contributed a truthy response time. -/
def getAvailabilityAnalytics (allHistory : List AvailabilityHistoryData)
    (mailboxId : Nat) (startDate endDate : Int) : AvailabilityAnalytics :=
  let history :=
    List.insertionSort (fun a b => b.createdAt ≤ a.createdAt)
      (allHistory.filter (inAnalyticsRange mailboxId startDate endDate))
  let totalDuration := history.foldl
    (fun acc h => if truthyDuration h then acc + h.durationSeconds.getD 0 else acc) (0 : Int)
  let statusDistribution := history.foldl
    (fun acc h => if truthyDuration h then bumpStatus acc h.fromStatus else acc)
    { online := 0, busy := 0, away := 0, offline := 0 }
  let totalConversations := history.foldl
    (fun acc h =>
      match h.sessionData with
      | some s => acc + s.conversationsHandled.getD 0
      | none => acc) (0 : Int)
  let totalMessages := history.foldl
    (fun acc h =>
      match h.sessionData with
      | some s => acc + s.messagesReplied.getD 0
      | none => acc) (0 : Int)
  let totalResponseTime := history.foldl
    (fun acc h =>
      if truthyResponseTime h then
        acc + ((h.sessionData.bind (·.averageResponseTime)).getD 0)
      else acc) (0 : Rat)
  let responseTimeCount := history.foldl
    (fun acc h => if truthyResponseTime h then acc + 1 else acc) (0 : Nat)
  { totalSessions := history.length
    averageSessionDuration :=
      if history.length > 0 then (totalDuration : Rat) / (history.length : Rat) else 0
    statusDistribution := statusDistribution
    productivityMetrics :=
      { totalConversationsHandled := totalConversations
        totalMessagesReplied := totalMessages
        averageResponseTime :=
          if responseTimeCount > 0 then totalResponseTime / (responseTimeCount : Rat)
          else 0 } }

/-- Truthiness of `input.message || null` in `setScheduledReturn`. -/
def messageOrNull (message : Option String) : Option String :=
  match message with
  | some m => if m.isEmpty then none else some m
  | none => none

/-- The operations of the repository that touch an availability record:
the four `availabilityRouter` mutations acting as (userId, mailboxId), and
the background sweep.  These are the only repository call sites of
`updateUserAvailability` / `recordUserActivity` /
`processScheduledStatusChanges`; none of them supplies `autoAwayAt`
except as described in their definitions. -/
inductive AvailabilityOp
  | updateStatus (status : Status) (customMessage : Option (Option String))
  | setBusinessHours (timezone : String) (schedule : List (String × Option (String × String)))
  | setScheduledReturn (returnAt : Int) (message : Option String)
  | recordActivity
  | sweep
deriving DecidableEq, Repr

/-- Dispatch of `AvailabilityOp` to the embedded data-layer functions, with
the exact update payloads each router mutation builds. -/
def applyOp (st : Store) (userId : String) (mailboxId : Nat) (now : Int)
    (broadcastOk : Bool) : AvailabilityOp → Except String Store
  | .updateStatus status customMessage =>
    (updateUserAvailability st userId mailboxId
      { status := some status, customMessage := customMessage, changeReason := .manual }
      now broadcastOk).map (·.1)
  | .setBusinessHours timezone schedule =>
    (updateUserAvailability st userId mailboxId
      { businessHours := some (some { timezone := timezone, schedule := schedule })
        changeReason := .manual } now broadcastOk).map (·.1)
  | .setScheduledReturn returnAt message =>
    (updateUserAvailability st userId mailboxId
      { status := some .away
        scheduledReturnAt := some (some returnAt)
        customMessage := some (messageOrNull message)
        changeReason := .manual } now broadcastOk).map (·.1)
  | .recordActivity => recordUserActivity st userId mailboxId now broadcastOk
  | .sweep => processScheduledStatusChanges st now broadcastOk

/-- Repeated assignment calls on an unchanged candidate set: call number
`k` of `selectBestMember`, threading the persisted cursor. -/
def selectCalls (availableMembers expertiseMatches : List AvailableTeamMember)
    (cursor : Option Nat) : Nat → Option AvailableTeamMember × Option Nat
  | 0 => selectBestMember availableMembers expertiseMatches cursor
  | n + 1 =>
    selectBestMember availableMembers expertiseMatches
      (selectCalls availableMembers expertiseMatches cursor n).2

/-- Uniqueness of the (userId, mailboxId) key across the table — the schema
invariant "one record per user×queue". -/
def KeyNodup (st : Store) : Prop :=
  (st.records.map keyOf).Nodup

/-- Modelled from the spec: the priority table of the scoring formula —
"priority: online=100, busy=50, away=0, offline=0". -/
def specPriority : Status → Int
  | .online => 100
  | .busy => 50
  | .away => 0
  | .offline => 0

/-- Modelled from the spec: "score = priority[status] − min(workload × 5, 50)
+ (25 if matched) + (10 if core role), floored at 0". -/
def specMemberScore (member : AvailableTeamMember) (matched : Bool) : Int :=
  max 0 (specPriority member.availability.status -
    min ((member.availability.currentWorkload : Int) * 5) 50 +
    (if matched then 25 else 0) +
    (if member.role == .core then 10 else 0))

/-- Modelled from the spec: "soft per-status capacity thresholds — online: 8,
busy: 3, away: 0, offline: 0 concurrent items". -/
def specWorkloadThreshold : Status → Nat
  | .online => 8
  | .busy => 3
  | .away => 0
  | .offline => 0

/-- Modelled from the spec: average session duration whose "denominator =
entries with a recorded (non-null) duration, not total entries". -/
def specAverageSessionDuration (allHistory : List AvailabilityHistoryData)
    (mailboxId : Nat) (startDate endDate : Int) : Rat :=
  let inRange := allHistory.filter (inAnalyticsRange mailboxId startDate endDate)
  let recorded := inRange.filter fun h => h.durationSeconds.isSome
  ((recorded.map fun h => ((h.durationSeconds.getD 0 : Int) : Rat)).sum) /
    (recorded.length : Rat)

/-- Pointwise effect of the scheduled-return pass on one record (what the
pass's keyed update does to a row that matches / does not match its query). -/
def sweepStepA (now : Int) (x : AvailabilityRecord) : AvailabilityRecord :=
  if scheduledReturnDue now x then applyAvailabilityUpdates x updScheduledReturn now else x

/-- Pointwise effect of the auto-away pass on one record. -/
def sweepStepB (now : Int) (x : AvailabilityRecord) : AvailabilityRecord :=
  if autoAwayDue now x then applyAvailabilityUpdates x updAutoAway now else x

/-! Concrete instances used by counterexamples and witnesses. -/

/-- A member scoring 100: online, workload 0, no bonuses. -/
def tieLowMember : AvailableTeamMember :=
  { id := "a", displayName := "A", role := .other, keywords := []
    availability :=
      { status := .online, currentWorkload := 0, isAvailableForAssignment := true
        customMessage := none } }

/-- A member also scoring 100: online, workload 5 (penalty 25), expertise
match (+25). -/
def tieHighMember : AvailableTeamMember :=
  { id := "b", displayName := "B", role := .other, keywords := ["x"]
    availability :=
      { status := .online, currentWorkload := 5, isAvailableForAssignment := true
        customMessage := none } }

/-- An online member with workload 2 (scores 90). -/
def onlineW2Member : AvailableTeamMember :=
  { id := "a", displayName := "A", role := .nonCore, keywords := []
    availability :=
      { status := .online, currentWorkload := 2, isAvailableForAssignment := true
        customMessage := none } }

/-- A busy member with workload 0 (scores 50). -/
def busyW0Member : AvailableTeamMember :=
  { id := "b", displayName := "B", role := .nonCore, keywords := []
    availability :=
      { status := .busy, currentWorkload := 0, isAvailableForAssignment := true
        customMessage := none } }

/-- A busy member at workload 3: at (not under) the busy threshold. -/
def busyW3Member : AvailableTeamMember :=
  { id := "c", displayName := "C", role := .nonCore, keywords := []
    availability :=
      { status := .busy, currentWorkload := 3, isAvailableForAssignment := true
        customMessage := none } }

/-- Roster entry behind `busyW3Member`. -/
def busyW3User : UserWithMailboxAccessData :=
  { id := "c", displayName := "C", role := .nonCore, keywords := [] }

/-- Workload distribution row behind `busyW3Member`. -/
def busyW3Dist : List WorkloadEntry :=
  [{ userId := "c", status := .busy, currentWorkload := 3
     isAvailableForAssignment := true, customMessage := none }]

/-- A conversation with no content at all (matcher is never consulted). -/
def emptyConversation : Conversation :=
  { id := 3, mailboxId := 1, subject := none, messages := []
    assignedToId := none, mergedIntoId := none }

/-- A matcher that always fails, standing for an unavailable external
capability. -/
def failingMatcher : Matcher := fun _ _ => .error "ai down"

/-- Roster entry with expertise keywords. -/
def keywordUser : UserWithMailboxAccessData :=
  { id := "m1", displayName := "M", role := .nonCore, keywords := ["billing"] }

/-- Workload row for `keywordUser`: online, free. -/
def keywordUserDist : List WorkloadEntry :=
  [{ userId := "m1", status := .online, currentWorkload := 0
     isAvailableForAssignment := true, customMessage := none }]

/-- A conversation with non-empty content. -/
def billingConversation : Conversation :=
  { id := 9, mailboxId := 1, subject := some "Billing question", messages := []
    assignedToId := none, mergedIntoId := none }

/-- An online record whose status was last changed at t = 1000 ms. -/
def onlineRecord : AvailabilityRecord :=
  { userId := "u1", mailboxId := 1, status := .online, customMessage := none
    lastActivityAt := 1000, lastStatusChangeAt := 1000, autoAwayAt := none
    scheduledReturnAt := none, businessHours := none }

/-- The same-status patch the status dropdown sends when only the custom
message changes. -/
def sameStatusPatch : AvailabilityUpdates :=
  { status := some .online, customMessage := some (some "focus"), changeReason := .manual }

/-- A history row with a recorded duration of 100 seconds. -/
def recordedEntry : AvailabilityHistoryData :=
  { userId := "u", mailboxId := 1, fromStatus := .online, toStatus := .away
    durationSeconds := some 100, changeReason := .manual, sessionData := none
    createdAt := 5 }

/-- A history row with no recorded duration. -/
def unrecordedEntry : AvailabilityHistoryData :=
  { userId := "u", mailboxId := 1, fromStatus := .away, toStatus := .online
    durationSeconds := none, changeReason := .manual, sessionData := none
    createdAt := 6 }

/-- An away record with a scheduled return due at t = 500 ms. -/
def dueReturnRecord : AvailabilityRecord :=
  { userId := "u2", mailboxId := 1, status := .away, customMessage := none
    lastActivityAt := 0, lastStatusChangeAt := 0, autoAwayAt := none
    scheduledReturnAt := some 500, businessHours := none }

/-- The record `onlineRecord` after the same-status patch: the message is
set, and the code also rewrote both timestamps to `now`. -/
def onlineRecordPatched : AvailabilityRecord :=
  { userId := "u1", mailboxId := 1, status := .online, customMessage := some "focus"
    lastActivityAt := 61000, lastStatusChangeAt := 61000, autoAwayAt := none
    scheduledReturnAt := none, businessHours := none }

/-- The record `onlineRecord` after an activity ping at t = 2000 ms: only
`lastActivityAt` advances. -/
def onlineRecordActive : AvailabilityRecord :=
  { userId := "u1", mailboxId := 1, status := .online, customMessage := none
    lastActivityAt := 2000, lastStatusChangeAt := 1000, autoAwayAt := none
    scheduledReturnAt := none, businessHours := none }

/-- A conversation that already has an assignee. -/
def assignedConversation : Conversation :=
  { id := 7, mailboxId := 1, subject := some "s", messages := []
    assignedToId := some "someone", mergedIntoId := none }

/-- The history row pass (a) writes for a due scheduled return. -/
def scheduledTransitionEntry (r : AvailabilityRecord) (now : Int) : AvailabilityHistoryData :=
  { userId := r.userId, mailboxId := r.mailboxId, fromStatus := r.status, toStatus := .online
    durationSeconds := some ((now - r.lastStatusChangeAt).fdiv 1000)
    changeReason := .scheduled, sessionData := none, createdAt := now }

/-!
Theorems.  Each claim's theorem carries a doc comment naming the claim;
auxiliary lemmas in between serve several claims.
-/

/-- Claim C2 (evidence of the divergence): calling `updateUserAvailability`
with a `newStatus` equal to the record's current status inserts no history
row — but it does NOT leave `lastStatusChangeAt` unchanged: at this concrete
same-status patch the timestamp jumps from 1000 to `now` = 61000, because
the source guards the timestamp with a truthiness test on
`availabilityUpdates.status` instead of the did-it-change test it uses for
the history insert. -/
theorem updateUserAvailability_same_status_resets_timestamp :
    updateUserAvailability { records := [onlineRecord], history := [] } "u1" 1
        sameStatusPatch 61000 true =
      .ok ({ records := [onlineRecordPatched], history := [] }, onlineRecordPatched)
    ∧ sameStatusPatch.status = some onlineRecord.status
    ∧ onlineRecord.lastStatusChangeAt ≠ (61000 : Int) := by
  refine ⟨rfl, by decide, by decide⟩

/-- Claim C4 (evidence of the divergence): the broadcast is awaited inside
the transaction callback, not after the commit — for every store, key,
update payload and clock, a failing broadcast fails the whole
`updateUserAvailability` call and no history insert or record update
survives (the `Except.error` carries no new store: full rollback). -/
theorem updateUserAvailability_broadcast_failure_rolls_back :
    ∀ (st : Store) (userId : String) (mailboxId : Nat) (u : AvailabilityUpdates) (now : Int),
      updateUserAvailability st userId mailboxId u now false = .error "broadcast failed" := by
  intro st userId mailboxId u now
  simp [updateUserAvailability]

/-- Claim C3 counterexample: a range holding one entry with duration 100
and one entry with no recorded duration.  The code returns 100 / 2 = 50,
dividing by the total entry count; the claimed denominator (entries with a
recorded duration) would give 100 / 1 = 100. -/
theorem averageSessionDuration_denominator_counterexample :
    (getAvailabilityAnalytics [recordedEntry, unrecordedEntry] 1 0 10).averageSessionDuration = 50
    ∧ specAverageSessionDuration [recordedEntry, unrecordedEntry] 1 0 10 = 100
    ∧ (getAvailabilityAnalytics [recordedEntry, unrecordedEntry] 1 0 10).averageSessionDuration ≠
        specAverageSessionDuration [recordedEntry, unrecordedEntry] 1 0 10 := by
  refine ⟨?_, ?_, ?_⟩ <;>
    norm_num [getAvailabilityAnalytics, specAverageSessionDuration, inAnalyticsRange,
      truthyDuration, recordedEntry, unrecordedEntry, truthyResponseTime,
      List.insertionSort, List.orderedInsert]

/-- Sum shape of the duration accumulator. -/
theorem foldl_duration_sum (l : List AvailabilityHistoryData) (a : Int) :
    l.foldl (fun acc h => if truthyDuration h then acc + h.durationSeconds.getD 0 else acc) a =
      a + (l.map fun h => if truthyDuration h then h.durationSeconds.getD 0 else 0).sum := by
  induction l generalizing a with
  | nil => simp
  | cons h t ih =>
    simp only [List.foldl_cons, List.map_cons, List.sum_cons, ih]
    by_cases hd : truthyDuration h <;> simp [hd] <;> ring

/-- Claim C3 amended: for every history and range, the analytics fold
computes average session duration with denominator equal to the TOTAL
number of entries in the range (entries without a truthy recorded duration
contribute zero to the numerator; an empty range yields zero). -/
theorem averageSessionDuration_total_denominator :
    ∀ (allHistory : List AvailabilityHistoryData) (mailboxId : Nat) (startDate endDate : Int),
      (getAvailabilityAnalytics allHistory mailboxId startDate endDate).averageSessionDuration =
        ((((allHistory.filter (inAnalyticsRange mailboxId startDate endDate)).map fun h =>
            if truthyDuration h then h.durationSeconds.getD 0 else 0).sum : Int) : Rat) /
          (((allHistory.filter (inAnalyticsRange mailboxId startDate endDate)).length : Nat) : Rat) := by
  intro allHistory mailboxId startDate endDate
  have hp := List.perm_insertionSort (fun a b => b.createdAt ≤ a.createdAt)
    (allHistory.filter (inAnalyticsRange mailboxId startDate endDate))
  have hlen := hp.length_eq
  have hsum := ((hp.map (fun h =>
    if truthyDuration h then h.durationSeconds.getD 0 else (0 : Int))).sum_eq)
  simp only [getAvailabilityAnalytics, foldl_duration_sum, zero_add, hlen, hsum]
  by_cases hz : (allHistory.filter (inAnalyticsRange mailboxId startDate endDate)).length = 0
  · rw [hz]
    have hnil : allHistory.filter (inAnalyticsRange mailboxId startDate endDate) = [] :=
      List.length_eq_zero.mp hz
    simp [hnil]
  · simp [Nat.pos_of_ne_zero hz]

/-- Claim C6: the assignment score equals
max(0, priority[status] − min(workload × 5, 50) + (25 if matched) +
(10 if core role)) with priority online=100, busy=50, away=0, offline=0;
an online candidate with workload 2 scores 90, a busy candidate with
workload 0 scores 50, and between exactly these two the engine selects the
online one for every cursor state, leaving the cursor untouched. -/
theorem calculateMemberScore_matches_spec_formula :
    (∀ (member : AvailableTeamMember) (matched : Bool),
      calculateMemberScore member matched = specMemberScore member matched)
    ∧ calculateMemberScore onlineW2Member false = 90
    ∧ calculateMemberScore busyW0Member false = 50
    ∧ ∀ cursor : Option Nat,
        selectBestMember [onlineW2Member, busyW0Member] [] cursor = (some onlineW2Member, cursor) := by
  refine ⟨?_, by decide, by decide, ?_⟩
  · intro m e
    obtain ⟨id, dn, role, kw, av⟩ := m
    obtain ⟨stt, wl, avail, msg⟩ := av
    cases stt <;> rfl
  · intro c
    rfl

/-- Claim C7: the workload gate keeps exactly the candidates strictly below
the per-status threshold (online 8, busy 3, away 0, offline 0); when the
gate empties, the engine falls back to the full available set, so a
nonempty available set is never emptied by capacity; a busy candidate at
workload 3 fails the gate yet is still selected end to end through
`getNextTeamMember` when alone. -/
theorem canHandleWorkload_gate_and_fallback :
    (∀ member : AvailableTeamMember,
      canHandleWorkload member =
        decide (member.availability.currentWorkload <
          specWorkloadThreshold member.availability.status))
    ∧ (∀ availableMembers : List AvailableTeamMember,
        availableMembers ≠ [] →
          (availableMembers.filter canHandleWorkload ≠ [] →
            membersToConsider availableMembers = availableMembers.filter canHandleWorkload)
          ∧ (availableMembers.filter canHandleWorkload = [] →
            membersToConsider availableMembers = availableMembers)
          ∧ membersToConsider availableMembers ≠ [])
    ∧ canHandleWorkload busyW3Member = false
    ∧ (∃ res cursor2,
        getNextTeamMember failingMatcher [busyW3User] emptyConversation busyW3Dist none =
          .ok (res, cursor2) ∧ res.member = some busyW3Member) := by
  refine ⟨?_, ?_, by decide, ?_⟩
  · intro m
    obtain ⟨id, dn, role, kw, av⟩ := m
    obtain ⟨stt, wl, avail, msg⟩ := av
    cases stt <;> rfl
  · intro am hne
    by_cases hf : am.filter canHandleWorkload = []
    · refine ⟨fun h => absurd hf h, fun _ => ?_, ?_⟩
      · simp [membersToConsider, hf]
      · simp [membersToConsider, hf]
        exact hne
    · have hpos : 0 < (am.filter canHandleWorkload).length := List.length_pos.mpr hf
      unfold membersToConsider
      rw [if_pos hpos]
      exact ⟨fun _ => rfl, fun h => absurd h hf, hf⟩
  · exact ⟨_, _, rfl, rfl⟩



/-- Claim C1 counterexample: two candidates tied on score 100 with
workloads 0 and 5.  The engine does NOT select the lowest-workload one and
consults the rotation cursor although the workloads differ: the call
returns the workload-5 member and persists cursor 1. -/
theorem selectBestMember_score_tie_counterexample :
    calculateMemberScore tieLowMember ([tieHighMember].contains tieLowMember) =
      calculateMemberScore tieHighMember ([tieHighMember].contains tieHighMember)
    ∧ tieLowMember.availability.currentWorkload < tieHighMember.availability.currentWorkload
    ∧ selectBestMember [tieLowMember, tieHighMember] [tieHighMember] none =
        (some tieHighMember, some 1) := by
  refine ⟨by decide, by decide, by decide⟩

/-- Totality of the selection comparator. -/
theorem scoreOrder_total (a b : ScoredMember) : scoreOrder a b = true ∨ scoreOrder b a = true := by
  simp only [scoreOrder, Bool.or_eq_true, Bool.and_eq_true, decide_eq_true_eq, beq_iff_eq]
  omega

/-- Transitivity of the selection comparator. -/
theorem scoreOrder_trans (a b c : ScoredMember) :
    scoreOrder a b = true → scoreOrder b c = true → scoreOrder a c = true := by
  simp only [scoreOrder, Bool.or_eq_true, Bool.and_eq_true, decide_eq_true_eq, beq_iff_eq]
  omega

/-- Every top candidate carries the leading score. -/
theorem topCandidates_score_eq (availableMembers expertiseMatches : List AvailableTeamMember)
    (a : ScoredMember) (ha : a ∈ topCandidates availableMembers expertiseMatches) :
    a.score = (((sortedScoredMembers availableMembers expertiseMatches).head?.map (·.score)).getD 0) := by
  have := (List.mem_filter.mp ha).2
  exact beq_iff_eq.mp this

/-- The score-tied top candidates appear in ascending workload order. -/
theorem topCandidates_sorted_by_workload (availableMembers expertiseMatches : List AvailableTeamMember) :
    List.Pairwise
      (fun a b : ScoredMember =>
        a.member.availability.currentWorkload ≤ b.member.availability.currentWorkload)
      (topCandidates availableMembers expertiseMatches) := by
  haveI : IsTotal ScoredMember (fun a b => scoreOrder a b = true) := ⟨scoreOrder_total⟩
  haveI : IsTrans ScoredMember (fun a b => scoreOrder a b = true) := ⟨scoreOrder_trans⟩
  have hs : List.Pairwise (fun a b => scoreOrder a b = true)
      (sortedScoredMembers availableMembers expertiseMatches) := by
    unfold sortedScoredMembers
    exact List.sorted_insertionSort _ _
  have htied : List.Pairwise (fun a b => scoreOrder a b = true)
      (topCandidates availableMembers expertiseMatches) :=
    List.Pairwise.sublist (List.filter_sublist _) hs
  refine htied.imp_of_mem ?_
  intro a b ha hb hr
  have h1 := topCandidates_score_eq availableMembers expertiseMatches a ha
  have h2 := topCandidates_score_eq availableMembers expertiseMatches b hb
  revert hr
  simp only [scoreOrder, Bool.or_eq_true, Bool.and_eq_true, decide_eq_true_eq, beq_iff_eq]
  omega

/-- On a score tie of size at least two, one call advances the cursor by one
modulo the tie size and selects that index of the workload-ordered tie set. -/
theorem selectBestMember_tie_step (availableMembers expertiseMatches : List AvailableTeamMember)
    (h2 : 2 ≤ (topCandidates availableMembers expertiseMatches).length) (c : Nat) :
    selectBestMember availableMembers expertiseMatches (some c) =
      ((topCandidates availableMembers expertiseMatches)[(c + 1) %
          (topCandidates availableMembers expertiseMatches).length]?.map (·.member),
        some ((c + 1) % (topCandidates availableMembers expertiseMatches).length)) := by
  have hlen : (topCandidates availableMembers expertiseMatches).length ≤ availableMembers.length := by
    calc (topCandidates availableMembers expertiseMatches).length
        ≤ (sortedScoredMembers availableMembers expertiseMatches).length :=
          List.length_filter_le _ _
      _ = availableMembers.length := by
          simp [sortedScoredMembers, (List.perm_insertionSort _ _).length_eq]
  have hne : availableMembers.isEmpty = false := by
    cases availableMembers with
    | nil =>
      rw [List.length_nil] at hlen
      omega
    | cons x xs => rfl
  have hne1 : ((topCandidates availableMembers expertiseMatches).length == 1) = false := by
    rw [beq_eq_false_iff_ne]
    omega
  unfold selectBestMember
  rw [hne]
  simp only [Bool.false_eq_true, if_false, hne1, Option.getD_some]

/-- Claim C1 amended: whenever at least two candidates share the maximum
score — even with different workloads — the tie set is ordered by ascending
workload and the rotation cursor is consulted: every call advances it by one
modulo the tie size, so repeated calls on the unchanged set cycle through it
in strict round-robin order. -/
theorem selectBestMember_round_robin_on_score_ties
    (availableMembers expertiseMatches : List AvailableTeamMember)
    (h2 : 2 ≤ (topCandidates availableMembers expertiseMatches).length) :
    List.Pairwise
      (fun a b : ScoredMember =>
        a.member.availability.currentWorkload ≤ b.member.availability.currentWorkload)
      (topCandidates availableMembers expertiseMatches)
    ∧ ∀ (c k : Nat),
        selectCalls availableMembers expertiseMatches (some c) k =
          ((topCandidates availableMembers expertiseMatches)[(c + k + 1) %
              (topCandidates availableMembers expertiseMatches).length]?.map (·.member),
            some ((c + k + 1) % (topCandidates availableMembers expertiseMatches).length)) := by
  refine ⟨topCandidates_sorted_by_workload availableMembers expertiseMatches, ?_⟩
  intro c k
  induction k with
  | zero => exact selectBestMember_tie_step availableMembers expertiseMatches h2 c
  | succ n ih =>
    show selectBestMember availableMembers expertiseMatches
        (selectCalls availableMembers expertiseMatches (some c) n).2 = _
    rw [ih]
    rw [selectBestMember_tie_step availableMembers expertiseMatches h2]
    rw [Nat.mod_add_mod]
    rfl

/-- Claim C1 witness: a concrete score tie with workloads 0 and 5; starting
from an empty cursor cache the calls select index 1 then index 0. -/
theorem selectBestMember_round_robin_witness :
    selectCalls [tieLowMember, tieHighMember] [tieHighMember] (some 0) 0 =
      (some tieHighMember, some 1)
    ∧ selectCalls [tieLowMember, tieHighMember] [tieHighMember] (some 0) 1 =
      (some tieLowMember, some 0) := by
  have h := selectBestMember_round_robin_on_score_ties [tieLowMember, tieHighMember]
    [tieHighMember] (by decide)
  refine ⟨?_, ?_⟩
  · rw [h.2 0 0]
    decide
  · rw [h.2 0 1]
    decide

/-- Nonempty in gives nonempty out of the capacity gate. -/
theorem membersToConsider_ne_nil (availableMembers : List AvailableTeamMember)
    (h : availableMembers ≠ []) : membersToConsider availableMembers ≠ [] := by
  unfold membersToConsider
  by_cases hf : 0 < (availableMembers.filter canHandleWorkload).length
  · rw [if_pos hf]
    exact List.length_pos.mp hf
  · rw [if_neg hf]
    exact h

/-- Claim C5 counterexample: with non-empty content and a keyword-bearing
online candidate, a failing matcher makes `getNextTeamMember` — and the
whole `autoAssignConversation` — fail with the matcher's error instead of
degrading to an empty match-set. -/
theorem getNextTeamMember_matcher_error_counterexample :
    getNextTeamMember failingMatcher [keywordUser] billingConversation keywordUserDist none =
      .error "ai down"
    ∧ autoAssignConversation failingMatcher (some billingConversation) (some { id := 1 })
        (some [keywordUser]) keywordUserDist none = .error (.matcherFailed "ai down") := by
  exact ⟨rfl, rfl⟩

/-- Claim C5 amended: the expertise step degrades to an empty match-set
only when the matcher is never consulted (empty content, no available
member, or no keyword-bearing candidate); when the matcher is consulted and
errors, the error propagates out of `getNextTeamMember`.  With empty
content the assignment decision always completes without a matcher
error. -/
theorem getNextTeamMember_matcher_error_propagates :
    ∀ (matcher : Matcher) (teamMembers : List UserWithMailboxAccessData)
      (conversation : Conversation) (dist : List WorkloadEntry) (cursor : Option Nat) (e : String),
      (getConversationContent conversation ≠ "" →
        getAvailableTeamMembers teamMembers dist ≠ [] →
        expertiseCandidates (membersToConsider (getAvailableTeamMembers teamMembers dist)) ≠ [] →
        matcher (expertiseCandidates (membersToConsider (getAvailableTeamMembers teamMembers dist)))
          (getConversationContent conversation) = .error e →
        getNextTeamMember matcher teamMembers conversation dist cursor = .error e)
      ∧ (getConversationContent conversation = "" →
          ∀ msg, getNextTeamMember matcher teamMembers conversation dist cursor ≠ .error msg) := by
  intro matcher tm conv dist cursor e
  constructor
  · intro hc hav hek hm
    have hav' : (getAvailableTeamMembers tm dist).isEmpty = false := by
      cases h : (getAvailableTeamMembers tm dist).isEmpty
      · rfl
      · exact absurd (List.isEmpty_iff.mp h) hav
    have hcons : membersToConsider (getAvailableTeamMembers tm dist) ≠ [] :=
      membersToConsider_ne_nil _ hav
    have hcons' : (membersToConsider (getAvailableTeamMembers tm dist)).isEmpty = false := by
      cases h : (membersToConsider (getAvailableTeamMembers tm dist)).isEmpty
      · rfl
      · exact absurd (List.isEmpty_iff.mp h) hcons
    have hc' : (getConversationContent conv).isEmpty = false := by
      cases h : (getConversationContent conv).isEmpty
      · rfl
      · exact absurd ((String.isEmpty_iff _).mp h) hc
    have hek' : (expertiseCandidates (membersToConsider (getAvailableTeamMembers tm dist))).isEmpty = false := by
      cases h : (expertiseCandidates (membersToConsider (getAvailableTeamMembers tm dist))).isEmpty
      · rfl
      · exact absurd (List.isEmpty_iff.mp h) hek
    have hexp : getExpertiseMatchingMembers matcher
        (membersToConsider (getAvailableTeamMembers tm dist)) (getConversationContent conv) =
        .error e := by
      unfold getExpertiseMatchingMembers
      rw [hc', hcons']
      simp only [Bool.or_self, Bool.false_eq_true, if_false, hek', hm]
    simp only [getNextTeamMember, hav', Bool.false_eq_true, if_false, hexp]
  · intro hc msg hbad
    by_cases hav : (getAvailableTeamMembers tm dist).isEmpty = true
    · simp only [getNextTeamMember] at hbad
      rw [if_pos hav] at hbad
      simp at hbad
    · have hemp : ("" : String).isEmpty = true := rfl
      have hexp : getExpertiseMatchingMembers matcher
          (membersToConsider (getAvailableTeamMembers tm dist)) (getConversationContent conv) =
          .ok ([], none) := by
        unfold getExpertiseMatchingMembers
        rw [hc, hemp]
        simp
      simp only [getNextTeamMember] at hbad
      rw [if_neg hav, hexp] at hbad
      simp at hbad

/-- Claim C5 witness: the amended theorem applied at a concrete failing
matcher and a non-empty conversation, cursor 5. -/
theorem getNextTeamMember_matcher_error_witness :
    getNextTeamMember failingMatcher [keywordUser] billingConversation keywordUserDist (some 5) =
      .error "ai down" :=
  (getNextTeamMember_matcher_error_propagates failingMatcher [keywordUser] billingConversation
    keywordUserDist (some 5) "ai down").1 (by decide) (by decide) (by decide) rfl

/-- Claim C8: an already-assigned or merged conversation, and a queue whose
roster has no CORE/NON_CORE member, short-circuit `autoAssignConversation`
to a structured skip outcome with an empty effect list (zero writes) and an
unchanged cursor — never an error. -/
theorem autoAssignConversation_precondition_skips :
    ∀ (matcher : Matcher) (conversation : Conversation) (mailbox : Option Mailbox)
      (teamMembers : Option (List UserWithMailboxAccessData)) (dist : List WorkloadEntry)
      (cursor : Option Nat),
      (conversation.assignedToId.isSome = true ∨ conversation.mergedIntoId.isSome = true →
        ∃ out, autoAssignConversation matcher (some conversation) mailbox teamMembers dist cursor =
            .ok (out, [], cursor)
          ∧ out.assigneeId = none
          ∧ (out.message = "Skipped: already assigned" ∨
              out.message = "Skipped: conversation is merged"))
      ∧ (∀ (mb : Mailbox) (team : List UserWithMailboxAccessData),
          conversation.assignedToId = none → conversation.mergedIntoId = none →
          team.filter (fun member => member.role == UserRole.core || member.role == UserRole.nonCore) = [] →
          autoAssignConversation matcher (some conversation) (some mb) (some team) dist cursor =
            .ok ({ message := "Skipped: no active team members available for assignment"
                   assigneeId := none }, [], cursor)) := by
  intro matcher conv mailbox teamMembers dist cursor
  constructor
  · intro hpre
    by_cases ha : conv.assignedToId.isSome = true
    · refine ⟨{ message := "Skipped: already assigned", assigneeId := none }, ?_, rfl, Or.inl rfl⟩
      simp only [autoAssignConversation, ha, if_true]
    · have hm : conv.mergedIntoId.isSome = true := hpre.resolve_left ha
      refine ⟨{ message := "Skipped: conversation is merged", assigneeId := none }, ?_, rfl, Or.inr rfl⟩
      have ha' : conv.assignedToId.isSome = false := by
        cases h : conv.assignedToId.isSome
        · rfl
        · exact absurd h ha
      simp only [autoAssignConversation, ha', Bool.false_eq_true, if_false, hm, if_true]
  · intro mb team h1 h2 h3
    simp only [autoAssignConversation, h1, h2, Option.isSome_none, Bool.false_eq_true, if_false, h3,
      List.isEmpty_nil, if_true]

/-- Claim C8 witness: the skip theorem applied to a concrete conversation
that already has an assignee. -/
theorem autoAssignConversation_skip_witness :
    ∃ out, autoAssignConversation failingMatcher (some assignedConversation) none none [] none =
        .ok (out, [], none)
      ∧ out.assigneeId = none
      ∧ (out.message = "Skipped: already assigned" ∨
          out.message = "Skipped: conversation is merged") :=
  (autoAssignConversation_precondition_skips failingMatcher assignedConversation none none [] none).1
    (Or.inl (by decide))



/-- Applying updates never changes the record key. -/
theorem keyOf_applyAvailabilityUpdates (r : AvailabilityRecord) (u : AvailabilityUpdates)
    (now : Int) : keyOf (applyAvailabilityUpdates r u now) = keyOf r := rfl

/-- The key predicate is invariant under applying updates. -/
theorem sameKey_applyAvailabilityUpdates (uid : String) (mid : Nat) (r : AvailabilityRecord)
    (u : AvailabilityUpdates) (now : Int) :
    sameKey uid mid (applyAvailabilityUpdates r u now) = sameKey uid mid r := rfl

/-- The key predicate decides key equality. -/
theorem sameKey_eq_true_iff (uid : String) (mid : Nat) (r : AvailabilityRecord) :
    sameKey uid mid r = true ↔ keyOf r = (uid, mid) := by
  simp [sameKey, keyOf, Prod.mk.injEq, Bool.and_eq_true, beq_iff_eq]

/-- A record matches its own key. -/
theorem sameKey_self (r : AvailabilityRecord) : sameKey r.userId r.mailboxId r = true := by
  simp [sameKey]

/-- With unique keys, looking a member record up by its key finds it. -/
theorem find?_key_of_nodup (l : List AvailabilityRecord) (hnd : (l.map keyOf).Nodup)
    (r : AvailabilityRecord) (hr : r ∈ l) :
    l.find? (sameKey r.userId r.mailboxId) = some r := by
  induction l with
  | nil => cases hr
  | cons a t ih =>
    rcases List.mem_cons.mp hr with h | h
    · subst h
      exact List.find?_cons_of_pos t (sameKey_self r)
    · have hnd2 : (keyOf a :: t.map keyOf).Nodup := by
        rw [List.map_cons] at hnd
        exact hnd
      have hnd' := List.nodup_cons.mp hnd2
      have hkey : keyOf a ≠ keyOf r := by
        intro he
        exact hnd'.1 (he ▸ List.mem_map_of_mem keyOf h)
      have hs : ¬sameKey r.userId r.mailboxId a = true := by
        intro htrue
        exact hkey ((sameKey_eq_true_iff r.userId r.mailboxId a).mp htrue)
      rw [List.find?_cons_of_neg t hs]
      exact ih hnd'.2 h

/-- Shape of a successful keyed update when the record exists. -/
theorem updateUserAvailability_existing (st : Store) (uid : String) (mid : Nat)
    (u : AvailabilityUpdates) (now : Int) (r : AvailabilityRecord)
    (hfind : getUserAvailability st uid mid = some r) :
    updateUserAvailability st uid mid u now true = .ok
      ({ records := st.records.map fun x =>
           if sameKey uid mid x then applyAvailabilityUpdates x u now else x
         history := st.history ++ (transitionEntry r u now).toList },
        applyAvailabilityUpdates r u now) := by
  simp only [updateUserAvailability, hfind, if_true]

/-- Shape of a successful keyed update when the record does not exist. -/
theorem updateUserAvailability_missing (st : Store) (uid : String) (mid : Nat)
    (u : AvailabilityUpdates) (now : Int)
    (hfind : getUserAvailability st uid mid = none) :
    updateUserAvailability st uid mid u now true = .ok
      ({ records := st.records ++ [createdRecord uid mid u now], history := st.history },
        createdRecord uid mid u now) := by
  simp only [updateUserAvailability, hfind, if_true]

/-- One sweep loop over a snapshot whose records are present with unique
keys rewrites every snapshot key pointwise and appends the snapshot's
transition entries in order. -/
theorem sweepPass_ok (u : AvailabilityUpdates) (now : Int) :
    ∀ (ts recs : List AvailabilityRecord) (hist : List AvailabilityHistoryData),
      (∀ r ∈ ts, recs.find? (sameKey r.userId r.mailboxId) = some r) →
      ((ts.map keyOf).Nodup) →
      sweepPass { records := recs, history := hist } ts u now true = .ok
        { records := recs.map fun x =>
            if keyOf x ∈ ts.map keyOf then applyAvailabilityUpdates x u now else x
          history := hist ++ ts.filterMap fun r => transitionEntry r u now } := by
  intro ts
  induction ts with
  | nil =>
    intro recs hist hts hnd
    simp only [sweepPass, List.foldlM_nil, List.map_nil, List.filterMap_nil, List.append_nil]
    have : (recs.map fun x =>
        if keyOf x ∈ ([] : List (String × Nat)) then applyAvailabilityUpdates x u now else x) =
        recs := by
      refine (List.map_congr_left fun x _ => ?_).trans (List.map_id recs)
      rw [if_neg (List.not_mem_nil _)]
      rfl
    rw [this]
    rfl
  | cons t ts ih =>
    intro recs hist hts hnd
    have hfind : getUserAvailability { records := recs, history := hist } t.userId t.mailboxId =
        some t := hts t (List.mem_cons_self t ts)
    have hstep := updateUserAvailability_existing { records := recs, history := hist }
      t.userId t.mailboxId u now t hfind
    have hnd2 : (keyOf t :: ts.map keyOf).Nodup := by
      rw [List.map_cons] at hnd
      exact hnd
    have hnd' := List.nodup_cons.mp hnd2
    have hkeys : ∀ r ∈ ts, keyOf r ≠ keyOf t := by
      intro r hr he
      exact hnd'.1 (he ▸ List.mem_map_of_mem keyOf hr)
    have hts1 : ∀ r ∈ ts,
        (recs.map fun x =>
          if sameKey t.userId t.mailboxId x then applyAvailabilityUpdates x u now else x).find?
            (sameKey r.userId r.mailboxId) = some r := by
      intro r hr
      have hmain := hts r (List.mem_cons_of_mem t hr)
      rw [List.find?_map]
      have hpred : (sameKey r.userId r.mailboxId ∘ fun x =>
          if sameKey t.userId t.mailboxId x then applyAvailabilityUpdates x u now else x) =
          sameKey r.userId r.mailboxId := by
        funext x
        simp only [Function.comp_apply]
        by_cases hx : sameKey t.userId t.mailboxId x = true
        · rw [if_pos hx]
          rfl
        · rw [if_neg hx]
      rw [hpred, hmain]
      have hsf : ¬sameKey t.userId t.mailboxId r = true := by
        intro htrue
        exact hkeys r hr ((sameKey_eq_true_iff t.userId t.mailboxId r).mp htrue)
      simp only [Option.map_some']
      rw [if_neg hsf]
    have hrec := ih
      (recs.map fun x =>
        if sameKey t.userId t.mailboxId x then applyAvailabilityUpdates x u now else x)
      (hist ++ (transitionEntry t u now).toList) hts1 hnd'.2
    have hbind : sweepPass { records := recs, history := hist } (t :: ts) u now true =
        sweepPass
          { records := recs.map fun x =>
              if sameKey t.userId t.mailboxId x then applyAvailabilityUpdates x u now else x
            history := hist ++ (transitionEntry t u now).toList } ts u now true := by
      unfold sweepPass
      rw [List.foldlM_cons]
      simp only [hstep]
      rfl
    refine hbind.trans (hrec.trans ?_)
    have hhist : (transitionEntry t u now).toList ++
        ts.filterMap (fun r => transitionEntry r u now) =
        (t :: ts).filterMap fun r => transitionEntry r u now := by
      rw [List.filterMap_cons]
      cases transitionEntry t u now <;> simp
    simp only [Except.ok.injEq, Store.mk.injEq]
    constructor
    · rw [List.map_map]
      refine List.map_congr_left fun x _ => ?_
      simp only [Function.comp_apply]
      by_cases hx : sameKey t.userId t.mailboxId x = true
      · rw [if_pos hx]
        have hkx : keyOf x = keyOf t := (sameKey_eq_true_iff t.userId t.mailboxId x).mp hx
        have hnotin : keyOf (applyAvailabilityUpdates x u now) ∉ ts.map keyOf := by
          rw [keyOf_applyAvailabilityUpdates, hkx]
          exact hnd'.1
        rw [if_neg hnotin]
        have hin : keyOf x ∈ (t :: ts).map keyOf := by
          rw [List.map_cons, hkx]
          exact List.mem_cons_self _ _
        rw [if_pos hin]
      · rw [if_neg hx]
        have hne : keyOf x ≠ keyOf t := fun he =>
          hx ((sameKey_eq_true_iff t.userId t.mailboxId x).mpr he)
        by_cases hmem : keyOf x ∈ ts.map keyOf
        · rw [if_pos hmem, if_pos (by rw [List.map_cons]; exact List.mem_cons_of_mem _ hmem)]
        · rw [if_neg hmem, if_neg (by
            rw [List.map_cons]
            intro hcontra
            rcases List.mem_cons.mp hcontra with h | h
            · exact hne h
            · exact hmem h)]
    · rw [List.append_assoc, hhist]



/-- The scheduled-return pointwise step keeps the key. -/
theorem keyOf_sweepStepA (now : Int) (x : AvailabilityRecord) :
    keyOf (sweepStepA now x) = keyOf x := by
  unfold sweepStepA
  split <;> rfl

/-- The auto-away pointwise step keeps the key. -/
theorem keyOf_sweepStepB (now : Int) (x : AvailabilityRecord) :
    keyOf (sweepStepB now x) = keyOf x := by
  unfold sweepStepB
  split <;> rfl

/-- A sweep pass over the records matching its own query predicate
rewrites exactly the matching records. -/
theorem sweepPass_filter_ok (recs : List AvailabilityRecord)
    (hist : List AvailabilityHistoryData) (p : AvailabilityRecord → Bool)
    (u : AvailabilityUpdates) (now : Int) (hnd : (recs.map keyOf).Nodup) :
    sweepPass { records := recs, history := hist } (recs.filter p) u now true = .ok
      { records := recs.map fun x => if p x then applyAvailabilityUpdates x u now else x
        history := hist ++ (recs.filter p).filterMap fun r => transitionEntry r u now } := by
  have hts : ∀ r ∈ recs.filter p, recs.find? (sameKey r.userId r.mailboxId) = some r := fun r hr =>
    find?_key_of_nodup recs hnd r (List.mem_filter.mp hr).1
  have hndf : ((recs.filter p).map keyOf).Nodup :=
    List.Nodup.sublist ((List.filter_sublist recs).map keyOf) hnd
  refine (sweepPass_ok u now (recs.filter p) recs hist hts hndf).trans ?_
  simp only [Except.ok.injEq, Store.mk.injEq]
  refine ⟨?_, trivial⟩
  refine List.map_congr_left fun x hx => ?_
  by_cases hp : p x = true
  · have hin : keyOf x ∈ (recs.filter p).map keyOf :=
      List.mem_map_of_mem keyOf (List.mem_filter.mpr ⟨hx, hp⟩)
    rw [if_pos hin, if_pos hp]
  · have hnin : keyOf x ∉ (recs.filter p).map keyOf := by
      intro hcontra
      obtain ⟨y, hy, hky⟩ := List.mem_map.mp hcontra
      have hyr := List.mem_filter.mp hy
      have hyx : y = x := List.inj_on_of_nodup_map hnd hyr.1 hx hky
      rw [hyx] at hyr
      exact hp hyr.2
    rw [if_neg hnin, if_neg hp]

/-- Full shape of one sweep: pass (a) applied pointwise, then pass (b)
applied pointwise to the updated table, histories appended in order. -/
theorem processScheduledStatusChanges_ok (recs : List AvailabilityRecord)
    (hist : List AvailabilityHistoryData) (now : Int)
    (hnd : (recs.map keyOf).Nodup) :
    processScheduledStatusChanges { records := recs, history := hist } now true = .ok
      { records := (recs.map (sweepStepA now)).map (sweepStepB now)
        history :=
          (hist ++ (recs.filter (scheduledReturnDue now)).filterMap
            (fun r => transitionEntry r updScheduledReturn now)) ++
          ((recs.map (sweepStepA now)).filter (autoAwayDue now)).filterMap
            (fun r => transitionEntry r updAutoAway now) } := by
  have h1 := sweepPass_filter_ok recs hist (scheduledReturnDue now) updScheduledReturn now hnd
  have hnd1 : ((recs.map (sweepStepA now)).map keyOf).Nodup := by
    rw [List.map_map]
    have hcomp : (keyOf ∘ sweepStepA now) = keyOf := funext fun x => keyOf_sweepStepA now x
    rw [hcomp]
    exact hnd
  have h2 := sweepPass_filter_ok (recs.map (sweepStepA now))
    (hist ++ (recs.filter (scheduledReturnDue now)).filterMap fun r =>
      transitionEntry r updScheduledReturn now)
    (autoAwayDue now) updAutoAway now hnd1
  unfold processScheduledStatusChanges
  show (sweepPass { records := recs, history := hist }
      (recs.filter (scheduledReturnDue now)) updScheduledReturn now true) >>=
      (fun st1 => sweepPass st1 (st1.records.filter (autoAwayDue now)) updAutoAway now true) = _
  rw [h1]
  show sweepPass
      { records := recs.map (sweepStepA now)
        history := hist ++ (recs.filter (scheduledReturnDue now)).filterMap fun r =>
          transitionEntry r updScheduledReturn now }
      ((recs.map (sweepStepA now)).filter (autoAwayDue now)) updAutoAway now true = _
  exact h2.trans (by rfl)

/-- A produced history row carries the key of its source record. -/
theorem transitionEntry_some_key (r : AvailabilityRecord) (u : AvailabilityUpdates) (now : Int)
    (e : AvailabilityHistoryData) (h : transitionEntry r u now = some e) :
    e.userId = r.userId ∧ e.mailboxId = r.mailboxId := by
  unfold transitionEntry at h
  split at h
  · split at h
    · cases h
      exact ⟨rfl, rfl⟩
    · cases h
  · cases h



/-- Claim C9: a sweep transitions every away record with a due scheduled
return to online with reason `scheduled` and clears the field; re-invoking
the sweep with the same `now` leaves that record's row and history slice
untouched, and records flipped by the auto-away pass are likewise excluded
from a repeated pass. -/
theorem sweep_scheduled_return_idempotent
    (st : Store) (now t : Int) (r : AvailabilityRecord)
    (hnd : KeyNodup st) (hr : r ∈ st.records) (hst : r.status = .away)
    (hsr : r.scheduledReturnAt = some t) (ht : t ≤ now) :
    ∃ st1, processScheduledStatusChanges st now true = .ok st1
      ∧ (∃ e ∈ st1.history, e.userId = r.userId ∧ e.mailboxId = r.mailboxId ∧
          e.fromStatus = .away ∧ e.toStatus = .online ∧ e.changeReason = .scheduled)
      ∧ (∀ x ∈ st1.records, keyOf x = keyOf r → x.scheduledReturnAt = none)
      ∧ (∃ st2, processScheduledStatusChanges st1 now true = .ok st2
          ∧ st2.records.filter (fun x => keyOf x == keyOf r) =
              st1.records.filter (fun x => keyOf x == keyOf r)
          ∧ st2.history.filter
              (fun e => e.userId == r.userId && e.mailboxId == r.mailboxId) =
              st1.history.filter
              (fun e => e.userId == r.userId && e.mailboxId == r.mailboxId))
      ∧ (∀ q ∈ st.records, autoAwayDue now q = true →
          ∀ x ∈ st1.records, keyOf x = keyOf q → autoAwayDue now x = false) := by
  obtain ⟨recs, hist⟩ := st
  have hnd0 : (recs.map keyOf).Nodup := hnd
  have hr0 : r ∈ recs := hr
  have hpo := processScheduledStatusChanges_ok recs hist now hnd0
  have hpredr : scheduledReturnDue now r = true := by
    simp [scheduledReturnDue, hsr, hst, ht]
  have hAr_eq : sweepStepA now r = applyAvailabilityUpdates r updScheduledReturn now := by
    unfold sweepStepA
    rw [if_pos hpredr]
  have hAr_sched : (sweepStepA now r).scheduledReturnAt = none := by
    rw [hAr_eq]
    rfl
  have hx0_sched : (sweepStepB now (sweepStepA now r)).scheduledReturnAt = none := by
    unfold sweepStepB
    split
    · exact hAr_sched
    · exact hAr_sched
  have hx0_schedDue : scheduledReturnDue now (sweepStepB now (sweepStepA now r)) = false := by
    simp [scheduledReturnDue, hx0_sched]
  have hx0_awayDue : autoAwayDue now (sweepStepB now (sweepStepA now r)) = false := by
    unfold sweepStepB
    by_cases hb : autoAwayDue now (sweepStepA now r) = true
    · rw [if_pos hb]
      have hfield : (applyAvailabilityUpdates (sweepStepA now r) updAutoAway now).autoAwayAt =
          none := rfl
      simp [autoAwayDue, hfield]
    · rw [if_neg hb]
      cases hvv : autoAwayDue now (sweepStepA now r)
      · rfl
      · exact absurd hvv hb
  refine ⟨_, hpo, ?_, ?_, ?_, ?_⟩
  · -- the scheduled transition entry is recorded
    have hentry : transitionEntry r updScheduledReturn now =
        some (scheduledTransitionEntry r now) := by
      simp only [transitionEntry, updScheduledReturn]
      rw [if_pos (by rw [hst]; decide)]
      rfl
    refine ⟨scheduledTransitionEntry r now, ?_, rfl, rfl, hst, rfl, rfl⟩
    refine List.mem_append.mpr (Or.inl (List.mem_append.mpr (Or.inr ?_)))
    exact List.mem_filterMap.mpr ⟨r, List.mem_filter.mpr ⟨hr0, hpredr⟩, hentry⟩
  · -- the scheduled return field is cleared
    intro x hx hkey
    obtain ⟨y1, hy1, rfl⟩ := List.mem_map.mp hx
    obtain ⟨y, hy, rfl⟩ := List.mem_map.mp hy1
    have hyr : y = r := by
      apply List.inj_on_of_nodup_map hnd0 hy hr0
      rw [keyOf_sweepStepB, keyOf_sweepStepA] at hkey
      exact hkey
    subst hyr
    exact hx0_sched
  · -- a repeated sweep with the same clock leaves this record's slice alone
    have hnd1 : (((recs.map (sweepStepA now)).map (sweepStepB now)).map keyOf).Nodup := by
      rw [List.map_map, List.map_map]
      have hcomp : ((keyOf ∘ sweepStepB now) ∘ sweepStepA now) = keyOf := by
        funext z
        simp [Function.comp_apply, keyOf_sweepStepB, keyOf_sweepStepA]
      rw [hcomp]
      exact hnd0
    have hpo2 := processScheduledStatusChanges_ok
      ((recs.map (sweepStepA now)).map (sweepStepB now))
      ((hist ++ (recs.filter (scheduledReturnDue now)).filterMap
          (fun rr => transitionEntry rr updScheduledReturn now)) ++
        ((recs.map (sweepStepA now)).filter (autoAwayDue now)).filterMap
          (fun rr => transitionEntry rr updAutoAway now)) now hnd1
    have hx0mem : sweepStepB now (sweepStepA now r) ∈
        (recs.map (sweepStepA now)).map (sweepStepB now) :=
      List.mem_map_of_mem _ (List.mem_map_of_mem _ hr0)
    have huniq : ∀ z ∈ (recs.map (sweepStepA now)).map (sweepStepB now),
        keyOf z = keyOf r → z = sweepStepB now (sweepStepA now r) := by
      intro z hz hkz
      refine List.inj_on_of_nodup_map hnd1 hz hx0mem ?_
      rw [hkz, keyOf_sweepStepB, keyOf_sweepStepA]
    have hAx0 : sweepStepA now (sweepStepB now (sweepStepA now r)) =
        sweepStepB now (sweepStepA now r) := by
      have h1 : sweepStepA now (sweepStepB now (sweepStepA now r)) =
          if scheduledReturnDue now (sweepStepB now (sweepStepA now r)) then
            applyAvailabilityUpdates (sweepStepB now (sweepStepA now r)) updScheduledReturn now
          else sweepStepB now (sweepStepA now r) := rfl
      rw [h1, hx0_schedDue]
      simp
    have hBx0 : sweepStepB now (sweepStepB now (sweepStepA now r)) =
        sweepStepB now (sweepStepA now r) := by
      have h1 : sweepStepB now (sweepStepB now (sweepStepA now r)) =
          if autoAwayDue now (sweepStepB now (sweepStepA now r)) then
            applyAvailabilityUpdates (sweepStepB now (sweepStepA now r)) updAutoAway now
          else sweepStepB now (sweepStepA now r) := rfl
      rw [h1, hx0_awayDue]
      simp
    refine ⟨_, hpo2, ?_, ?_⟩
    · -- records slice unchanged
      rw [List.filter_map, List.filter_map]
      have hpred : (((fun x => keyOf x == keyOf r) ∘ sweepStepB now) ∘ sweepStepA now) =
          fun x => keyOf x == keyOf r := by
        funext z
        simp only [Function.comp_apply]
        rw [keyOf_sweepStepB, keyOf_sweepStepA]
      rw [hpred, List.map_map]
      refine (List.map_congr_left ?_).trans (List.map_id _)
      intro z hz
      obtain ⟨hzmem, hzkey⟩ := List.mem_filter.mp hz
      have hzx0 : z = sweepStepB now (sweepStepA now r) :=
        huniq z hzmem (beq_iff_eq.mp hzkey)
      subst hzx0
      simp only [Function.comp_apply, id_eq]
      rw [hAx0, hBx0]
    · -- history slice unchanged
      rw [List.filter_append, List.filter_append]
      have hNA2 : List.filter (fun e => e.userId == r.userId && e.mailboxId == r.mailboxId)
          (List.filterMap (fun rr => transitionEntry rr updScheduledReturn now)
            (List.filter (scheduledReturnDue now)
              ((recs.map (sweepStepA now)).map (sweepStepB now)))) = [] := by
        rw [List.filter_eq_nil_iff]
        intro e he hkeyU
        obtain ⟨y, hy, hye⟩ := List.mem_filterMap.mp he
        obtain ⟨hyR, hypred⟩ := List.mem_filter.mp hy
        obtain ⟨heu, hem⟩ := transitionEntry_some_key y _ now e hye
        simp only [Bool.and_eq_true, beq_iff_eq] at hkeyU
        have hky : keyOf y = keyOf r := by
          unfold keyOf
          rw [← heu, ← hem, hkeyU.1, hkeyU.2]
        have hyx0 := huniq y hyR hky
        rw [hyx0, hx0_schedDue] at hypred
        cases hypred
      have hNB2 : List.filter (fun e => e.userId == r.userId && e.mailboxId == r.mailboxId)
          (List.filterMap (fun rr => transitionEntry rr updAutoAway now)
            (List.filter (autoAwayDue now)
              (((recs.map (sweepStepA now)).map (sweepStepB now)).map (sweepStepA now)))) = [] := by
        rw [List.filter_eq_nil_iff]
        intro e he hkeyU
        obtain ⟨y, hy, hye⟩ := List.mem_filterMap.mp he
        obtain ⟨hyR, hypred⟩ := List.mem_filter.mp hy
        obtain ⟨z, hz, rfl⟩ := List.mem_map.mp hyR
        obtain ⟨heu, hem⟩ := transitionEntry_some_key _ _ now e hye
        simp only [Bool.and_eq_true, beq_iff_eq] at hkeyU
        have hkz : keyOf z = keyOf r := by
          have h1 : keyOf (sweepStepA now z) = keyOf z := keyOf_sweepStepA now z
          unfold keyOf at h1 ⊢
          rw [← h1, ← heu, ← hem, hkeyU.1, hkeyU.2]
        have hzx0 := huniq z hz hkz
        rw [hzx0, hAx0, hx0_awayDue] at hypred
        cases hypred
      rw [hNA2, hNB2, List.append_nil, List.append_nil]
  · -- records flipped by the auto-away pass fail its predicate afterwards
    intro q hq hqdue x hx hkey
    obtain ⟨y1, hy1, rfl⟩ := List.mem_map.mp hx
    obtain ⟨y, hy, rfl⟩ := List.mem_map.mp hy1
    have hyq : y = q := by
      apply List.inj_on_of_nodup_map hnd0 hy hq
      rw [keyOf_sweepStepB, keyOf_sweepStepA] at hkey
      exact hkey
    subst hyq
    have hqon : y.status = .online := by
      have h1 := hqdue
      simp only [autoAwayDue, Bool.and_eq_true, beq_iff_eq] at h1
      exact h1.2
    have hA : sweepStepA now y = y := by
      unfold sweepStepA
      have h2 : scheduledReturnDue now y = false := by
        simp [scheduledReturnDue, hqon]
      rw [h2]
      simp
    rw [hA]
    unfold sweepStepB
    rw [if_pos hqdue]
    have hfield : (applyAvailabilityUpdates y updAutoAway now).autoAwayAt = none := rfl
    simp [autoAwayDue, hfield]



/-- The activity-ping updates never set a deadline when none is armed. -/
theorem recordActivityUpdates_autoAway_none (current : AvailabilityRecord) (now : Int)
    (h : current.autoAwayAt = none) :
    (recordActivityUpdates current now).autoAwayAt = none := by
  unfold recordActivityUpdates
  rw [h]
  simp only [Option.isSome_none, Bool.false_eq_true, if_false]
  split <;> rfl

/-- Recover the full update result from its post-`map` projection. -/
theorem except_map_fst_ok (e : Except String (Store × AvailabilityRecord)) (st1 : Store)
    (h : e.map (fun x => x.1) = .ok st1) : ∃ rec, e = .ok (st1, rec) := by
  cases e with
  | error msg => simp [Except.map] at h
  | ok pair =>
    obtain ⟨a, b⟩ := pair
    simp [Except.map] at h
    exact ⟨b, by rw [h]⟩

/-- A keyed update whose payload does not arm the deadline keeps a null
`autoAwayAt` null on every row with the given record's key. -/
theorem updateUserAvailability_keeps_null_autoAway
    (st : Store) (uid : String) (mid : Nat) (u : AvailabilityUpdates) (now : Int)
    (st1 : Store) (rec : AvailabilityRecord)
    (hnd : KeyNodup st)
    (hu : u.autoAwayAt = none ∨ u.autoAwayAt = some none)
    (hup : updateUserAvailability st uid mid u now true = .ok (st1, rec))
    (r : AvailabilityRecord) (hr : r ∈ st.records) (hnone : r.autoAwayAt = none) :
    ∀ x ∈ st1.records, keyOf x = keyOf r → x.autoAwayAt = none := by
  have happly : ∀ y : AvailabilityRecord, y.autoAwayAt = none →
      (applyAvailabilityUpdates y u now).autoAwayAt = none := by
    intro y hy
    show u.autoAwayAt.getD y.autoAwayAt = none
    rcases hu with h | h
    · rw [h, Option.getD_none]
      exact hy
    · rw [h]
      rfl
  cases hc : getUserAvailability st uid mid with
  | some cur =>
    rw [updateUserAvailability_existing st uid mid u now cur hc] at hup
    have hst1 : st1 =
        { records := st.records.map (fun x =>
            if sameKey uid mid x then applyAvailabilityUpdates x u now else x)
          history := st.history ++ (transitionEntry cur u now).toList } := by
      simp only [Except.ok.injEq, Prod.mk.injEq] at hup
      exact hup.1.symm
    subst hst1
    intro x hx hkey
    obtain ⟨y, hy, rfl⟩ := List.mem_map.mp hx
    have hky : keyOf y = keyOf r := by
      by_cases hsk : sameKey uid mid y = true
      · rw [if_pos hsk, keyOf_applyAvailabilityUpdates] at hkey
        exact hkey
      · rw [if_neg hsk] at hkey
        exact hkey
    have hyr : y = r := List.inj_on_of_nodup_map hnd hy hr hky
    subst hyr
    by_cases hsk : sameKey uid mid y = true
    · rw [if_pos hsk]
      exact happly y hnone
    · rw [if_neg hsk]
      exact hnone
  | none =>
    rw [updateUserAvailability_missing st uid mid u now hc] at hup
    have hst1 : st1 =
        { records := st.records ++ [createdRecord uid mid u now]
          history := st.history } := by
      simp only [Except.ok.injEq, Prod.mk.injEq] at hup
      exact hup.1.symm
    subst hst1
    intro x hx hkey
    rcases List.mem_append.mp hx with h | h
    · have hxr : x = r := List.inj_on_of_nodup_map hnd h hr hkey
      rw [hxr]
      exact hnone
    · have hxc : x = createdRecord uid mid u now := List.mem_singleton.mp h
      rw [hxc]
      show u.autoAwayAt.getD none = none
      rcases hu with h2 | h2
      · rw [h2]
        rfl
      · rw [h2]
        rfl

/-- A keyed update aimed at a different key leaves this record's row
untouched. -/
theorem updateUserAvailability_other_key
    (st : Store) (uid : String) (mid : Nat) (u : AvailabilityUpdates) (now : Int)
    (st1 : Store) (rec : AvailabilityRecord)
    (hnd : KeyNodup st)
    (hup : updateUserAvailability st uid mid u now true = .ok (st1, rec))
    (r : AvailabilityRecord) (hr : r ∈ st.records) (hk : keyOf r ≠ (uid, mid))
    (hnone : r.autoAwayAt = none) :
    ∀ x ∈ st1.records, keyOf x = keyOf r → x.autoAwayAt = none := by
  cases hc : getUserAvailability st uid mid with
  | some cur =>
    rw [updateUserAvailability_existing st uid mid u now cur hc] at hup
    have hst1 : st1 =
        { records := st.records.map (fun x =>
            if sameKey uid mid x then applyAvailabilityUpdates x u now else x)
          history := st.history ++ (transitionEntry cur u now).toList } := by
      simp only [Except.ok.injEq, Prod.mk.injEq] at hup
      exact hup.1.symm
    subst hst1
    intro x hx hkey
    obtain ⟨y, hy, rfl⟩ := List.mem_map.mp hx
    have hky : keyOf y = keyOf r := by
      by_cases hsk : sameKey uid mid y = true
      · rw [if_pos hsk, keyOf_applyAvailabilityUpdates] at hkey
        exact hkey
      · rw [if_neg hsk] at hkey
        exact hkey
    have hyr : y = r := List.inj_on_of_nodup_map hnd hy hr hky
    subst hyr
    have hsk : ¬sameKey uid mid y = true := by
      intro htrue
      exact hk ((sameKey_eq_true_iff uid mid y).mp htrue)
    rw [if_neg hsk]
    exact hnone
  | none =>
    rw [updateUserAvailability_missing st uid mid u now hc] at hup
    have hst1 : st1 =
        { records := st.records ++ [createdRecord uid mid u now]
          history := st.history } := by
      simp only [Except.ok.injEq, Prod.mk.injEq] at hup
      exact hup.1.symm
    subst hst1
    intro x hx hkey
    rcases List.mem_append.mp hx with h | h
    · have hxr : x = r := List.inj_on_of_nodup_map hnd h hr hkey
      rw [hxr]
      exact hnone
    · have hxc : x = createdRecord uid mid u now := List.mem_singleton.mp h
      rw [hxc] at hkey
      exact absurd hkey.symm hk

/-- An activity ping keeps a null deadline null. -/
theorem recordUserActivity_keeps_null_autoAway
    (st : Store) (uid : String) (mid : Nat) (now : Int) (st1 : Store)
    (hnd : KeyNodup st)
    (hup : recordUserActivity st uid mid now true = .ok st1)
    (r : AvailabilityRecord) (hr : r ∈ st.records) (hnone : r.autoAwayAt = none) :
    ∀ x ∈ st1.records, keyOf x = keyOf r → x.autoAwayAt = none := by
  unfold recordUserActivity at hup
  cases hc : getUserAvailability st uid mid with
  | none =>
    rw [hc] at hup
    obtain ⟨rec, hrec⟩ := except_map_fst_ok _ _ hup
    exact updateUserAvailability_keeps_null_autoAway st uid mid _ now st1 rec hnd
      (Or.inl rfl) hrec r hr hnone
  | some cur =>
    rw [hc] at hup
    obtain ⟨rec, hrec⟩ := except_map_fst_ok _ _ hup
    by_cases hk : keyOf r = (uid, mid)
    · have hfr : st.records.find? (sameKey r.userId r.mailboxId) = some r :=
        find?_key_of_nodup st.records hnd r hr
      have hcur : cur = r := by
        have huid : r.userId = uid := congrArg Prod.fst hk
        have hmid : r.mailboxId = mid := congrArg Prod.snd hk
        unfold getUserAvailability at hc
        rw [← huid, ← hmid] at hc
        have := hfr.symm.trans hc
        exact (Option.some.injEq _ _ ▸ this).symm
      refine updateUserAvailability_keeps_null_autoAway st uid mid _ now st1 rec hnd
        (Or.inl (recordActivityUpdates_autoAway_none cur now ?_)) hrec r hr hnone
      rw [hcur]
      exact hnone
    · exact updateUserAvailability_other_key st uid mid _ now st1 rec hnd hrec r hr hk hnone

/-- A sweep keeps a null deadline null. -/
theorem sweep_keeps_null_autoAway (st : Store) (now : Int) (st1 : Store)
    (hnd : KeyNodup st) (hup : processScheduledStatusChanges st now true = .ok st1)
    (r : AvailabilityRecord) (hr : r ∈ st.records) (hnone : r.autoAwayAt = none) :
    ∀ x ∈ st1.records, keyOf x = keyOf r → x.autoAwayAt = none := by
  obtain ⟨recs, hist⟩ := st
  have hnd0 : (recs.map keyOf).Nodup := hnd
  have hr0 : r ∈ recs := hr
  have hpo := processScheduledStatusChanges_ok recs hist now hnd0
  have hst1 : st1 =
      { records := (recs.map (sweepStepA now)).map (sweepStepB now)
        history :=
          (hist ++ (recs.filter (scheduledReturnDue now)).filterMap
            (fun rr => transitionEntry rr updScheduledReturn now)) ++
          ((recs.map (sweepStepA now)).filter (autoAwayDue now)).filterMap
            (fun rr => transitionEntry rr updAutoAway now) } := by
    have h1 := hup.symm.trans hpo
    simp only [Except.ok.injEq] at h1
    exact h1
  subst hst1
  intro x hx hkey
  obtain ⟨y1, hy1, rfl⟩ := List.mem_map.mp hx
  obtain ⟨y, hy, rfl⟩ := List.mem_map.mp hy1
  have hyr : y = r := by
    apply List.inj_on_of_nodup_map hnd0 hy hr0
    rw [keyOf_sweepStepB, keyOf_sweepStepA] at hkey
    exact hkey
  subst hyr
  have hA : (sweepStepA now y).autoAwayAt = none := by
    unfold sweepStepA
    split
    · exact hnone
    · exact hnone
  have h1 : sweepStepB now (sweepStepA now y) =
      if autoAwayDue now (sweepStepA now y) then
        applyAvailabilityUpdates (sweepStepA now y) updAutoAway now
      else sweepStepA now y := rfl
  rw [h1]
  split
  · rfl
  · exact hA

/-- Claim C10: no repository operation arms `autoAwayAt` from a null state —
a record with a null deadline keeps it null under every operation, and the
auto-inactivity sweep pass is unreachable for it. -/
theorem autoAwayAt_never_armed_from_null :
    ∀ (st : Store) (userId : String) (mailboxId : Nat) (now : Int) (op : AvailabilityOp)
      (st1 : Store) (r : AvailabilityRecord),
      KeyNodup st →
      applyOp st userId mailboxId now true op = .ok st1 →
      r ∈ st.records → r.autoAwayAt = none →
      (∀ x ∈ st1.records, keyOf x = keyOf r → x.autoAwayAt = none) ∧
        autoAwayDue now r = false := by
  intro st uid mid now op st1 r hnd hup hr hnone
  refine ⟨?_, by simp [autoAwayDue, hnone]⟩
  cases op with
  | updateStatus s msg =>
    simp only [applyOp] at hup
    obtain ⟨rec, hrec⟩ := except_map_fst_ok _ _ hup
    exact updateUserAvailability_keeps_null_autoAway st uid mid _ now st1 rec hnd
      (Or.inl rfl) hrec r hr hnone
  | setBusinessHours tz sched =>
    simp only [applyOp] at hup
    obtain ⟨rec, hrec⟩ := except_map_fst_ok _ _ hup
    exact updateUserAvailability_keeps_null_autoAway st uid mid _ now st1 rec hnd
      (Or.inl rfl) hrec r hr hnone
  | setScheduledReturn ret msg =>
    simp only [applyOp] at hup
    obtain ⟨rec, hrec⟩ := except_map_fst_ok _ _ hup
    exact updateUserAvailability_keeps_null_autoAway st uid mid _ now st1 rec hnd
      (Or.inl rfl) hrec r hr hnone
  | recordActivity =>
    simp only [applyOp] at hup
    exact recordUserActivity_keeps_null_autoAway st uid mid now st1 hnd hup r hr hnone
  | sweep =>
    simp only [applyOp] at hup
    exact sweep_keeps_null_autoAway st now st1 hnd hup r hr hnone

/-- Claim C10 witness: an activity ping on an online record with no armed
deadline leaves the deadline null, and that record never matches the
auto-inactivity pass. -/
theorem autoAwayAt_null_witness :
    onlineRecordActive.autoAwayAt = none ∧ autoAwayDue 2000 onlineRecord = false := by
  have h := autoAwayAt_never_armed_from_null { records := [onlineRecord], history := [] }
    "u1" 1 2000 .recordActivity { records := [onlineRecordActive], history := [] }
    onlineRecord (by unfold KeyNodup; decide) rfl (by decide) rfl
  exact ⟨h.1 onlineRecordActive (by decide) rfl, h.2⟩



/-- Claim C9 witness: one away record with a scheduled return due at 500 ms,
swept at 1000 ms. -/
theorem sweep_scheduled_return_witness :
    ∃ st1, processScheduledStatusChanges { records := [dueReturnRecord], history := [] } 1000 true =
        .ok st1
      ∧ (∃ e ∈ st1.history, e.userId = dueReturnRecord.userId ∧
          e.mailboxId = dueReturnRecord.mailboxId ∧
          e.fromStatus = .away ∧ e.toStatus = .online ∧ e.changeReason = .scheduled)
      ∧ (∀ x ∈ st1.records, keyOf x = keyOf dueReturnRecord → x.scheduledReturnAt = none)
      ∧ (∃ st2, processScheduledStatusChanges st1 1000 true = .ok st2
          ∧ st2.records.filter (fun x => keyOf x == keyOf dueReturnRecord) =
              st1.records.filter (fun x => keyOf x == keyOf dueReturnRecord)
          ∧ st2.history.filter
              (fun e => e.userId == dueReturnRecord.userId &&
                e.mailboxId == dueReturnRecord.mailboxId) =
              st1.history.filter
              (fun e => e.userId == dueReturnRecord.userId &&
                e.mailboxId == dueReturnRecord.mailboxId))
      ∧ (∀ q ∈ ({ records := [dueReturnRecord], history := [] } : Store).records,
          autoAwayDue 1000 q = true →
          ∀ x ∈ st1.records, keyOf x = keyOf q → autoAwayDue 1000 x = false) :=
  sweep_scheduled_return_idempotent { records := [dueReturnRecord], history := [] } 1000 500
    dueReturnRecord (by unfold KeyNodup; decide) (by decide) rfl rfl (by decide)

/-- Claim C7 witness: with the lone busy workload-3 member the gate filter is
empty and the fallback keeps the member selectable. -/
theorem canHandleWorkload_gate_witness :
    membersToConsider [busyW3Member] = [busyW3Member] := by
  have h := (canHandleWorkload_gate_and_fallback).2.1 [busyW3Member] (by decide)
  exact h.2.1 (by decide)

end Helper
